import Mathlib

/-!
Verification of the MBTiles builder/server pair
(`src/Flutter/xyz_to_mbtiles.py` and `src/mbtiles_server.py`).

The two Python scripts are shallowly embedded below: the SQLite `tiles`
relation becomes a list of rows (its unique index becomes the
insert-or-replace discipline), the directory walk becomes a fold over an
explicit tree of named entries, and the HTTP handler becomes a total
function from parsed requests to responses (the `try/except` blocks of the
read path become the `none`/fallback branches).
-/

namespace MBT

/-- Tile image bytes (a SQLite BLOB / Python `bytes` value). -/
abbrev Bytes := List Nat

/-- The XYZ (top-down) to TMS (bottom-up) row flip `(1 << z) - 1 - y`,
as written at `xyz_to_mbtiles.py:46` and `mbtiles_server.py:70`.
`1 <<< z = 2 ^ z`.  Note that the source applies no range check to `y`. -/
def xyzToTms (z : Nat) (y : Int) : Int := 2 ^ z - 1 - y

/-- One row of the `tiles` relation:
`tiles (zoom_level INTEGER, tile_column INTEGER, tile_row INTEGER, tile_data BLOB)`. -/
structure TileRow where
  zoom_level : Int
  tile_column : Int
  tile_row : Int
  tile_data : Bytes
deriving Repr, DecidableEq

/-- The key triple covered by
`CREATE UNIQUE INDEX tile_index ON tiles (zoom_level, tile_column, tile_row)`. -/
def rowKey (t : TileRow) : Int × Int × Int := (t.zoom_level, t.tile_column, t.tile_row)

/-- `WHERE zoom_level=? AND tile_column=? AND tile_row=?` as a row predicate. -/
def matchKey (z x r : Int) (t : TileRow) : Bool :=
  t.zoom_level == z && t.tile_column == x && t.tile_row == r

/-- `SELECT tile_data FROM tiles WHERE zoom_level=? AND tile_column=? AND tile_row=?`
followed by `fetchone()` (`mbtiles_server.py:72-81`). -/
def lookupTiles (rows : List TileRow) (z x r : Int) : Option Bytes :=
  (rows.find? (matchKey z x r)).map TileRow.tile_data

/-- `INSERT OR REPLACE INTO tiles VALUES (?,?,?,?)` (`xyz_to_mbtiles.py:49-50`)
under the unique index on the key triple: any row holding the same key is
deleted and the new row is inserted. -/
def insertOrReplace (rows : List TileRow) (t : TileRow) : List TileRow :=
  rows.filter (fun u => !(matchKey t.zoom_level t.tile_column t.tile_row u)) ++ [t]

/-- A draft tile record produced by the directory walk: top-down (XYZ)
coordinates plus the bytes read from the source file. -/
structure Draft where
  z : Nat
  x : Nat
  y : Nat
  data : Bytes
deriving Repr, DecidableEq

/-- The `tiles` row written for a draft: the walk's top-down row is flipped
to bottom-up before the insert (`xyz_to_mbtiles.py:44-50`). -/
def draftRow (d : Draft) : TileRow :=
  { zoom_level := (d.z : Int), tile_column := (d.x : Int),
    tile_row := xyzToTms d.z (d.y : Int), tile_data := d.data }

/-- The builder's ingestion loop over a sequence of draft records, in walk
order, starting from the freshly created (empty) `tiles` relation. -/
def ingest (ds : List Draft) : List TileRow :=
  ds.foldl (fun rows d => insertOrReplace rows (draftRow d)) []

/-- Python `str.isdigit()` on the ASCII names that occur as tile
directory/file names: nonempty and all decimal digits. -/
def isDigitName (s : String) : Bool :=
  !s.toList.isEmpty && s.toList.all Char.isDigit

/-- Value of a decimal digit character. -/
def digitVal (c : Char) : Nat := c.toNat - 48

/-- Python `int(s)` on a digit-only name. -/
def parseDigits (s : String) : Nat :=
  s.toList.foldl (fun a c => a * 10 + digitVal c) 0

/-- Python `str.endswith(suffix)`. -/
def endsWithStr (suffix s : String) : Bool :=
  List.isSuffixOf suffix.toList s.toList

/-- The accepted leaf extensions (`xyz_to_mbtiles.py:39`). -/
def hasTileExt (s : String) : Bool :=
  endsWithStr ".png" s || endsWithStr ".jpg" s || endsWithStr ".jpeg" s

/-- `os.path.splitext(s)[0]`: the name up to the last dot.  For every name
accepted by `hasTileExt` this agrees with Python's splitext as far as the
subsequent `isdigit` test is concerned (they differ only on all-dot stems,
which are never digit strings). -/
def stemOf (s : String) : String :=
  match (s.toList.reverse).dropWhile (fun c => c ≠ '.') with
  | [] => s
  | _ :: rest => String.mk rest.reverse

/-- A leaf directory entry: a file with its name and content. -/
structure FileEnt where
  name : String
  content : Bytes
deriving Repr, DecidableEq

/-- A column-level directory entry (`{z}/{x}`), with the `os.path.isdir`
answer for it and the files `os.listdir` yields inside it. -/
structure ColEnt where
  name : String
  isDir : Bool
  files : List FileEnt
deriving Repr, DecidableEq

/-- A top-level entry of the source tree (`{z}`), with the `os.path.isdir`
answer for it and the column entries inside it. -/
structure ZoomEnt where
  name : String
  isDir : Bool
  cols : List ColEnt
deriving Repr, DecidableEq

/-- The leaf step of the walk (`xyz_to_mbtiles.py:38-48`): accept a file
whose name has an accepted extension and a digit-only stem. -/
def fileDraft (z x : Nat) (f : FileEnt) : Option Draft :=
  if hasTileExt f.name then
    if isDigitName (stemOf f.name) then
      some { z := z, x := x, y := parseDigits (stemOf f.name), data := f.content }
    else none
  else none

/-- The column step of the walk (`xyz_to_mbtiles.py:33-37`): skip entries
whose name is not digit-only or which are not directories. -/
def colDrafts (z : Nat) (c : ColEnt) : List Draft :=
  if isDigitName c.name && c.isDir then c.files.filterMap (fileDraft z (parseDigits c.name))
  else []

/-- The zoom step of the walk (`xyz_to_mbtiles.py:25-32`): skip non-digit
names; a digit-named non-directory contributes no tiles (but does update the
zoom range, see `zRangeStep`). -/
def zoomDrafts (e : ZoomEnt) : List Draft :=
  if isDigitName e.name then
    if e.isDir then (e.cols.map (colDrafts (parseDigits e.name))).flatten
    else []
  else []

/-- The sort key of `sorted(os.listdir(src), key=lambda s: int(s) if s.isdigit() else 999)`. -/
def listdirKey (s : String) : Nat := if isDigitName s then parseDigits s else 999

/-- Insertion of one entry into a key-sorted list of entries. -/
def insertSorted (e : ZoomEnt) : List ZoomEnt → List ZoomEnt
  | [] => [e]
  | a :: as =>
    if listdirKey a.name ≤ listdirKey e.name then a :: insertSorted e as
    else e :: a :: as

/-- `sorted(os.listdir(src), key=...)`; only membership in the result
matters to the properties below (the walk order among distinct coordinates
is observable only through duplicate resolution, which the claims quantify
over explicitly). -/
def sortZoomEnts : List ZoomEnt → List ZoomEnt
  | [] => []
  | a :: as => insertSorted a (sortZoomEnts as)

/-- One step of the `z_min`/`z_max` tracking (`xyz_to_mbtiles.py:26-29`):
the update happens right after the `isdigit` test and *before* the
`os.path.isdir` test, so digit-named non-directories also update the range. -/
def zRangeStep (p : Int × Int) (e : ZoomEnt) : Int × Int :=
  if isDigitName e.name then
    (min p.1 (parseDigits e.name : Int), max p.2 (parseDigits e.name : Int))
  else p

/-- The `(z_min, z_max)` pair after the walk, starting from the sentinel
`(99, -1)` (`xyz_to_mbtiles.py:23`). -/
def zRange (tree : List ZoomEnt) : Int × Int :=
  (sortZoomEnts tree).foldl zRangeStep (99, -1)

/-- The zoom numbers of the digit-named top-level entries of the source
tree, in tree order: exactly the values the builder's `z_min`/`z_max`
tracking folds over. -/
def digitZooms (tree : List ZoomEnt) : List Nat :=
  (tree.filter (fun e => isDigitName e.name)).map (fun e => parseDigits e.name)

/-- All draft records the walk yields, in walk order. -/
def walkDrafts (tree : List ZoomEnt) : List Draft :=
  ((sortZoomEnts tree).map zoomDrafts).flatten

/-- `os.path.basename` on a slash-separated path: the suffix after the last
slash. -/
def basename (p : String) : String :=
  String.mk ((p.toList.reverse.takeWhile (fun c => c ≠ '/')).reverse)

/-- Python `str.lower()` on the ASCII format names argparse admits. -/
def lowerChar (c : Char) : Char :=
  if 'A' ≤ c ∧ c ≤ 'Z' then Char.ofNat (c.toNat + 32) else c

/-- Python `str.lower()` (`fmt.lower()` at `xyz_to_mbtiles.py:62`). -/
def strLower (s : String) : String := String.mk (s.toList.map lowerChar)

/-- `str(z_min if z_min != 99 else 0)` (`xyz_to_mbtiles.py:63`). -/
def minzoomStr (zr : Int × Int) : String := toString (if zr.1 ≠ 99 then zr.1 else 0)

/-- `str(z_max if z_max != -1 else 0)` (`xyz_to_mbtiles.py:64`). -/
def maxzoomStr (zr : Int × Int) : String := toString (if zr.2 ≠ -1 then zr.2 else 0)

/-- The metadata rows written once at the end of a build
(`xyz_to_mbtiles.py:57-66`), in insertion order. -/
def metadataRows (dst fmt : String) (zr : Int × Int) : List (String × String) :=
  [("name", basename dst),
   ("type", "baselayer"),
   ("version", "1.0"),
   ("description", "Packed from XYZ folder"),
   ("format", strLower fmt),
   ("minzoom", minzoomStr zr),
   ("maxzoom", maxzoomStr zr),
   ("attribution", "")]

/-- The container: the `tiles` and `metadata` relations. -/
structure TileStore where
  tiles : List TileRow
  metadata : List (String × String)
deriving Repr, DecidableEq

/-- The world the builder acts on: whether `src` is a directory, the source
tree under it, and the container currently at the destination path
(`none` when no file exists there). -/
structure World where
  srcIsDir : Bool
  tree : List ZoomEnt
  dst : Option TileStore
deriving Repr, DecidableEq

/-- `xyz_to_mbtiles(src, dst, fmt)` (`xyz_to_mbtiles.py:4-69`), returning the
final world together with the outcome: `Except.error` models the
`raise SystemExit(...)` on a bad source directory, which fires before the
destination is removed or created; on success the destination is
destructively replaced by the freshly built container and the tile count is
returned. -/
def xyz_to_mbtiles (w : World) (src dst fmt : String) : World × Except String Nat :=
  if !w.srcIsDir then
    (w, Except.error ("Source folder not found: " ++ src))
  else
    let drafts := walkDrafts w.tree
    ({ w with
        dst := some { tiles := ingest drafts,
                      metadata := metadataRows dst fmt (zRange w.tree) } },
     Except.ok drafts.length)

/-- Process exit status of the builder run: `raise SystemExit(msg)` with a
string message exits with status 1; normal completion exits 0. -/
def exitStatus : Except String Nat → Nat
  | Except.error _ => 1
  | Except.ok _ => 0

/-- The extension of a parsed tile request (`.png`, `.jpg` or `.jpeg`,
`mbtiles_server.py:26`). -/
inductive ImgExt
  | png
  | jpg
  | jpeg
deriving Repr, DecidableEq

/-- A parsed HTTP GET request: a three-segment integer tile path with an
accepted extension, the `/metadata` path, or anything else (delegated to the
generic static handler). -/
inductive Request
  | tile (z x y : Int) (ext : ImgExt)
  | metadata
  | other
deriving Repr, DecidableEq

/-- The body of an HTTP response. -/
inductive Body
  | bytes (b : Bytes)
  | jsonObject (m : List (String × String))
  | errorPage (msg : String)
  | staticFile
deriving Repr, DecidableEq

/-- An HTTP response: status, headers in `send_header` order, body. -/
structure Response where
  status : Nat
  headers : List (String × String)
  body : Body
deriving Repr, DecidableEq

/-- `MBTilesHandler.get_tile` (`mbtiles_server.py:62-85`).  The surrounding
`try/except Exception` returns `None` on any raise: with no readable store
the `SELECT` raises (`none` branch), and a negative `z` makes `1 << z` raise
`ValueError` (the `z < 0` branch); otherwise the flip and the point query
run. -/
def get_tile (db : Option TileStore) (z x y : Int) : Option Bytes :=
  match db with
  | none => none
  | some s =>
    if z < 0 then none
    else lookupTiles s.tiles z x (xyzToTms z.toNat y)

/-- Python `dict(pairs)`: first-occurrence position, last value wins. -/
def dictInsert (m : List (String × String)) (kv : String × String) : List (String × String) :=
  if m.any (fun p => p.1 == kv.1) then
    m.map (fun p => if p.1 == kv.1 then (p.1, kv.2) else p)
  else m ++ [kv]

/-- `dict(cursor.fetchall())` over the metadata rows. -/
def dictOfPairs (l : List (String × String)) : List (String × String) :=
  l.foldl dictInsert []

/-- `MBTilesHandler.get_metadata` (`mbtiles_server.py:87-100`): the
`try/except` returns the empty mapping when the store is missing or
unreadable. -/
def get_metadata (db : Option TileStore) : List (String × String) :=
  match db with
  | none => []
  | some s => dictOfPairs s.metadata

/-- The headers sent on a tile hit (`mbtiles_server.py:35-38`): the
Content-Type is the constant `image/png` whatever extension was requested. -/
def tileOkHeaders : List (String × String) :=
  [("Content-Type", "image/png"),
   ("Access-Control-Allow-Origin", "*"),
   ("Access-Control-Allow-Methods", "GET"),
   ("Access-Control-Allow-Headers", "Content-Type")]

/-- The headers sent on a metadata response (`mbtiles_server.py:53-54`). -/
def metadataHeaders : List (String × String) :=
  [("Content-Type", "application/json"),
   ("Access-Control-Allow-Origin", "*")]

/-- `MBTilesHandler.do_GET` (`mbtiles_server.py:20-60`) on a parsed request.
Note `if tile_data:` tests Python truthiness, so both a missing tile
(`None`) and a stored *empty* blob (`b""`) take the 404 branch. -/
def do_GET (db : Option TileStore) (r : Request) : Response :=
  match r with
  | Request.tile z x y _ =>
    match get_tile db z x y with
    | some b =>
      if b.isEmpty then
        { status := 404, headers := [], body := Body.errorPage "Tile not found" }
      else
        { status := 200, headers := tileOkHeaders, body := Body.bytes b }
    | none => { status := 404, headers := [], body := Body.errorPage "Tile not found" }
  | Request.metadata =>
    { status := 200, headers := metadataHeaders, body := Body.jsonObject (get_metadata db) }
  | Request.other => { status := 200, headers := [], body := Body.staticFile }

/-- The key triple of the `tiles` row a draft produces. -/
def draftKey (d : Draft) : Int × Int × Int :=
  ((d.z : Int), (d.x : Int), xyzToTms d.z (d.y : Int))

/-- The uniqueness invariant of `tile_index`: no two rows share the key triple. -/
def KeysDistinct (rows : List TileRow) : Prop :=
  rows.Pairwise fun s t => rowKey s ≠ rowKey t

/-- A source tree holding the single file `0/0/0.png` with empty content. -/
def treeEmptyTile : List ZoomEnt := [⟨"0", true, [⟨"0", true, [⟨"0.png", []⟩]⟩]⟩]

/-- A source tree holding the single file `0/0/5.png`: top-down row 5 at
zoom 0, far outside the valid row range `[0, 0]`. -/
def treeOutOfRange : List ZoomEnt := [⟨"0", true, [⟨"0", true, [⟨"5.png", [7]⟩]⟩]⟩]

/-- A source tree whose only top-level entry is a plain file named `3`
(digit-named, not a directory): the walk yields no tile from it. -/
def treeDigitFile : List ZoomEnt := [⟨"3", false, []⟩]

/-- A source tree holding the single tile `99/0/0.png`: its only observed
zoom, 99, collides with the builder's `z_min` sentinel. -/
def treeZoom99 : List ZoomEnt := [⟨"99", true, [⟨"0", true, [⟨"0.png", [1]⟩]⟩]⟩]

/-- A container holding one nonempty tile at TMS coordinate (0, 0, 0). -/
def storeOneTile : TileStore := ⟨[⟨0, 0, 0, [80, 75]⟩], []⟩

/-- A source tree holding the single file `0/0/0.png` with nonempty content. -/
def treeOneTile : List ZoomEnt := [⟨"0", true, [⟨"0", true, [⟨"0.png", [1, 2]⟩]⟩]⟩]

/-- A source tree whose only top-level entry has a non-digit name. -/
def treeNoDigit : List ZoomEnt := [⟨"assets", true, []⟩]

/-! ### Store lemmas -/

theorem matchKey_iff {z x r : Int} {t : TileRow} :
    matchKey z x r t = true ↔ rowKey t = (z, x, r) := by
  simp [matchKey, rowKey, Prod.ext_iff, and_assoc]

theorem find?_filter_superset {α : Type} (l : List α) (p q : α → Bool)
    (h : ∀ a, q a = true → p a = true) :
    (l.filter p).find? q = l.find? q := by
  induction l with
  | nil => rfl
  | cons a as ih =>
    by_cases hq : q a = true
    · rw [List.filter_cons, if_pos (h a hq), List.find?_cons_of_pos _ hq,
        List.find?_cons_of_pos _ hq]
    · have hq' : ¬ q a := fun hc => hq hc
      by_cases hp : p a = true
      · rw [List.filter_cons, if_pos hp, List.find?_cons_of_neg _ hq',
          List.find?_cons_of_neg _ hq', ih]
      · rw [List.filter_cons, if_neg hp, List.find?_cons_of_neg _ hq', ih]

theorem lookupTiles_insertOrReplace_self (rows : List TileRow) (t : TileRow) :
    lookupTiles (insertOrReplace rows t) t.zoom_level t.tile_column t.tile_row
      = some t.tile_data := by
  unfold lookupTiles insertOrReplace
  rw [List.find?_append]
  have h1 : (rows.filter fun u => !(matchKey t.zoom_level t.tile_column t.tile_row u)).find?
      (matchKey t.zoom_level t.tile_column t.tile_row) = none := by
    rw [List.find?_eq_none]
    intro u hu hc
    have h2 := (List.mem_filter.mp hu).2
    rw [hc] at h2
    exact absurd h2 (by simp)
  rw [h1]
  have h3 : matchKey t.zoom_level t.tile_column t.tile_row t = true :=
    matchKey_iff.mpr rfl
  simp [h3]

theorem lookupTiles_insertOrReplace_ne (rows : List TileRow) (t : TileRow)
    (z x r : Int) (h : (z, x, r) ≠ rowKey t) :
    lookupTiles (insertOrReplace rows t) z x r = lookupTiles rows z x r := by
  unfold lookupTiles insertOrReplace
  rw [List.find?_append]
  have ht : ¬ (matchKey z x r t = true) := by
    rw [matchKey_iff]
    exact fun hc => h hc.symm
  have h1 : ([t].find? (matchKey z x r)) = none := by
    rw [List.find?_eq_none]
    intro u hu
    rw [List.mem_singleton.mp hu]
    exact ht
  rw [h1, find?_filter_superset]
  · cases rows.find? (matchKey z x r) <;> rfl
  · intro a ha
    have hk : rowKey a = (z, x, r) := matchKey_iff.mp ha
    have : ¬ (matchKey t.zoom_level t.tile_column t.tile_row a = true) := by
      rw [matchKey_iff, hk]
      exact fun hc => h hc
    simpa using this

theorem rowKey_draftRow (d : Draft) : rowKey (draftRow d) = draftKey d := rfl

theorem draftKey_eq_iff {d e : Draft} :
    draftKey d = draftKey e ↔ (d.z, d.x, d.y) = (e.z, e.x, e.y) := by
  unfold draftKey xyzToTms
  simp only [Prod.ext_iff]
  constructor
  · rintro ⟨h1, h2, h3⟩
    have hz : d.z = e.z := by exact_mod_cast h1
    have hx : d.x = e.x := by exact_mod_cast h2
    rw [hz] at h3
    have hy : d.y = e.y := by exact_mod_cast sub_right_inj.mp h3
    exact ⟨hz, hx, hy⟩
  · rintro ⟨h1, h2, h3⟩
    rw [h1, h2, h3]
    exact ⟨rfl, rfl, rfl⟩

theorem lookupTiles_ingestFold_of_not_mem (ds : List Draft) (rows : List TileRow)
    (z x r : Int) (h : ∀ d ∈ ds, draftKey d ≠ (z, x, r)) :
    lookupTiles (ds.foldl (fun rows d => insertOrReplace rows (draftRow d)) rows) z x r
      = lookupTiles rows z x r := by
  induction ds generalizing rows with
  | nil => rfl
  | cons d ds ih =>
    rw [List.foldl_cons, ih _ fun e he => h e (List.mem_cons_of_mem _ he),
      lookupTiles_insertOrReplace_ne]
    rw [rowKey_draftRow]
    exact fun hc => h d (List.mem_cons_self _ _) hc.symm

theorem lookupTiles_ingest_append (l1 l2 : List Draft) (d : Draft)
    (h : ∀ e ∈ l2, draftKey e ≠ draftKey d) :
    lookupTiles (ingest (l1 ++ d :: l2)) (d.z : Int) (d.x : Int) (xyzToTms d.z (d.y : Int))
      = some d.data := by
  unfold ingest
  rw [List.foldl_append, List.foldl_cons,
    lookupTiles_ingestFold_of_not_mem l2 _ _ _ _ h]
  exact lookupTiles_insertOrReplace_self _ (draftRow d)

theorem keysDistinct_insertOrReplace {rows : List TileRow} (h : KeysDistinct rows)
    (t : TileRow) : KeysDistinct (insertOrReplace rows t) := by
  unfold KeysDistinct insertOrReplace
  rw [List.pairwise_append]
  refine ⟨List.Pairwise.sublist (List.filter_sublist _) h, by simp, ?_⟩
  intro a ha b hb
  rw [List.mem_singleton.mp hb]
  have h2 := (List.mem_filter.mp ha).2
  intro hc
  rw [show rowKey t = (t.zoom_level, t.tile_column, t.tile_row) from rfl, ← matchKey_iff] at hc
  rw [hc] at h2
  exact absurd h2 (by simp)

theorem keysDistinct_ingestFold (ds : List Draft) (rows : List TileRow)
    (h : KeysDistinct rows) :
    KeysDistinct (ds.foldl (fun rows d => insertOrReplace rows (draftRow d)) rows) := by
  induction ds generalizing rows with
  | nil => exact h
  | cons d ds ih => exact ih _ (keysDistinct_insertOrReplace h _)

theorem keysDistinct_ingest (ds : List Draft) : KeysDistinct (ingest ds) :=
  keysDistinct_ingestFold ds [] List.Pairwise.nil

theorem filter_eq_singleton_of_distinct {rows : List TileRow} (hd : KeysDistinct rows)
    {z x r : Int} {t : TileRow} (hf : rows.find? (matchKey z x r) = some t) :
    rows.filter (matchKey z x r) = [t] := by
  induction rows with
  | nil => simp at hf
  | cons a as ih =>
    rcases List.pairwise_cons.mp hd with ⟨hda, hdas⟩
    by_cases ha : matchKey z x r a = true
    · rw [List.find?_cons_of_pos _ ha] at hf
      have hat : a = t := by injection hf
      subst hat
      rw [List.filter_cons, if_pos ha, List.filter_eq_nil_iff.mpr]
      intro b hb hcb
      exact hda b hb (by rw [matchKey_iff.mp ha, matchKey_iff.mp hcb])
    · rw [List.find?_cons_of_neg _ ha] at hf
      rw [List.filter_cons, if_neg ha]
      exact ih hdas hf

/-! ### Walk lemmas -/

theorem mem_insertSorted {a e : ZoomEnt} {l : List ZoomEnt} :
    a ∈ insertSorted e l ↔ a = e ∨ a ∈ l := by
  induction l with
  | nil => simp [insertSorted]
  | cons b bs ih =>
    unfold insertSorted
    by_cases h : listdirKey b.name ≤ listdirKey e.name
    · rw [if_pos h]
      simp only [List.mem_cons, ih]
      tauto
    · rw [if_neg h]
      exact List.mem_cons

theorem mem_sortZoomEnts {a : ZoomEnt} {l : List ZoomEnt} :
    a ∈ sortZoomEnts l ↔ a ∈ l := by
  induction l with
  | nil => simp [sortZoomEnts]
  | cons b bs ih =>
    unfold sortZoomEnts
    rw [mem_insertSorted, ih, List.mem_cons]

theorem foldl_zRangeStep_of_no_digit (l : List ZoomEnt) (p : Int × Int)
    (h : ∀ e ∈ l, isDigitName e.name = false) :
    l.foldl zRangeStep p = p := by
  induction l generalizing p with
  | nil => rfl
  | cons a as ih =>
    rw [List.foldl_cons,
      show zRangeStep p a = p by simp [zRangeStep, h a (List.mem_cons_self _ _)]]
    exact ih _ fun e he => h e (List.mem_cons_of_mem _ he)

theorem foldl_zRangeStep_le (l : List ZoomEnt) (p : Int × Int) :
    (l.foldl zRangeStep p).1 ≤ p.1 ∧ p.2 ≤ (l.foldl zRangeStep p).2 := by
  induction l generalizing p with
  | nil => exact ⟨le_refl _, le_refl _⟩
  | cons a as ih =>
    rw [List.foldl_cons]
    rcases ih (zRangeStep p a) with ⟨h1, h2⟩
    refine ⟨le_trans h1 ?_, le_trans ?_ h2⟩ <;>
      · unfold zRangeStep
        split <;> simp

theorem foldl_zRangeStep_bounds (l : List ZoomEnt) (p : Int × Int) :
    ∀ e ∈ l, isDigitName e.name = true →
      (l.foldl zRangeStep p).1 ≤ (parseDigits e.name : Int)
      ∧ (parseDigits e.name : Int) ≤ (l.foldl zRangeStep p).2 := by
  induction l generalizing p with
  | nil => intro e he; cases he
  | cons a as ih =>
    intro e he hd
    rw [List.foldl_cons]
    rcases List.mem_cons.mp he with rfl | he'
    · rcases foldl_zRangeStep_le as (zRangeStep p e) with ⟨h1, h2⟩
      refine ⟨le_trans h1 ?_, le_trans ?_ h2⟩ <;> simp [zRangeStep, hd]
    · exact ih _ e he' hd

theorem foldl_zRangeStep_attain_fst (l : List ZoomEnt) (p : Int × Int) :
    (l.foldl zRangeStep p).1 = p.1
    ∨ ∃ e ∈ l, isDigitName e.name = true
        ∧ (l.foldl zRangeStep p).1 = (parseDigits e.name : Int) := by
  induction l generalizing p with
  | nil => exact Or.inl rfl
  | cons a as ih =>
    rw [List.foldl_cons]
    rcases ih (zRangeStep p a) with h | ⟨e, he, hd, heq⟩
    · by_cases hd : isDigitName a.name = true
      · rcases le_total p.1 (parseDigits a.name : Int) with hle | hle
        · left
          rw [h]
          simp [zRangeStep, hd, min_eq_left hle]
        · right
          exact ⟨a, List.mem_cons_self _ _, hd, by rw [h]; simp [zRangeStep, hd, min_eq_right hle]⟩
      · left
        rw [h]
        simp [zRangeStep, hd]
    · exact Or.inr ⟨e, List.mem_cons_of_mem _ he, hd, heq⟩

theorem foldl_zRangeStep_attain_snd (l : List ZoomEnt) (p : Int × Int) :
    (l.foldl zRangeStep p).2 = p.2
    ∨ ∃ e ∈ l, isDigitName e.name = true
        ∧ (l.foldl zRangeStep p).2 = (parseDigits e.name : Int) := by
  induction l generalizing p with
  | nil => exact Or.inl rfl
  | cons a as ih =>
    rw [List.foldl_cons]
    rcases ih (zRangeStep p a) with h | ⟨e, he, hd, heq⟩
    · by_cases hd : isDigitName a.name = true
      · rcases le_total (parseDigits a.name : Int) p.2 with hle | hle
        · left
          rw [h]
          simp [zRangeStep, hd, max_eq_left hle]
        · right
          exact ⟨a, List.mem_cons_self _ _, hd, by rw [h]; simp [zRangeStep, hd, max_eq_right hle]⟩
      · left
        rw [h]
        simp [zRangeStep, hd]
    · exact Or.inr ⟨e, List.mem_cons_of_mem _ he, hd, heq⟩

theorem mem_digitZooms {k : Nat} {tree : List ZoomEnt} :
    k ∈ digitZooms tree
      ↔ ∃ e ∈ tree, isDigitName e.name = true ∧ parseDigits e.name = k := by
  simp only [digitZooms, List.mem_map, List.mem_filter]
  constructor
  · rintro ⟨e, ⟨he, hd⟩, hk⟩
    exact ⟨e, he, hd, hk⟩
  · rintro ⟨e, he, hd, hk⟩
    exact ⟨e, ⟨he, hd⟩, hk⟩

theorem zRange_min_eq {tree : List ZoomEnt} {m : Nat}
    (hm : m ∈ digitZooms tree) (hmin : ∀ k ∈ digitZooms tree, m ≤ k) (h99 : m < 99) :
    (zRange tree).1 = (m : Int) := by
  rcases mem_digitZooms.mp hm with ⟨e, he, hd, hk⟩
  have he' : e ∈ sortZoomEnts tree := mem_sortZoomEnts.mpr he
  have hb := (foldl_zRangeStep_bounds (sortZoomEnts tree) (99, -1) e he' hd).1
  rw [hk] at hb
  unfold zRange
  rcases foldl_zRangeStep_attain_fst (sortZoomEnts tree) (99, -1) with h | ⟨f, hf, hfd, hfe⟩
  · exfalso
    rw [h, show ((99 : Int), (-1 : Int)).1 = (99 : Int) from rfl] at hb
    have hm99 : (m : Int) < 99 := by exact_mod_cast h99
    omega
  · have hfz : parseDigits f.name ∈ digitZooms tree :=
      mem_digitZooms.mpr ⟨f, mem_sortZoomEnts.mp hf, hfd, rfl⟩
    have h1 : (m : Int) ≤ (parseDigits f.name : Int) := by exact_mod_cast hmin _ hfz
    rw [hfe] at hb ⊢
    omega

theorem zRange_max_eq {tree : List ZoomEnt} {M : Nat}
    (hM : M ∈ digitZooms tree) (hmax : ∀ k ∈ digitZooms tree, k ≤ M) :
    (zRange tree).2 = (M : Int) := by
  rcases mem_digitZooms.mp hM with ⟨e, he, hd, hk⟩
  have he' : e ∈ sortZoomEnts tree := mem_sortZoomEnts.mpr he
  have hb := (foldl_zRangeStep_bounds (sortZoomEnts tree) (99, -1) e he' hd).2
  rw [hk] at hb
  unfold zRange
  rcases foldl_zRangeStep_attain_snd (sortZoomEnts tree) (99, -1) with h | ⟨f, hf, hfd, hfe⟩
  · exfalso
    rw [h, show ((99 : Int), (-1 : Int)).2 = (-1 : Int) from rfl] at hb
    have hM0 : (0 : Int) ≤ (M : Int) := Int.natCast_nonneg M
    omega
  · have hfz : parseDigits f.name ∈ digitZooms tree :=
      mem_digitZooms.mpr ⟨f, mem_sortZoomEnts.mp hf, hfd, rfl⟩
    have h1 : (parseDigits f.name : Int) ≤ (M : Int) := by exact_mod_cast hmax _ hfz
    rw [hfe] at hb ⊢
    omega

/-! ### Claim theorems -/

/-- C2, counterexample: at zoom 0 the valid row range is `[0, 0]`, yet the
builder ingests the file `0/0/5.png` without any out-of-range error: the run
succeeds (ok, 1 tile) and stores the row at `tile_row = -5`.  The claim that
the conversion "fails with an out-of-range error whenever the given row lies
outside [0, 2^zoom - 1]" is therefore false of the code. -/
theorem out_of_range_row_ingested_ok :
    (xyz_to_mbtiles ⟨true, treeOutOfRange, none⟩ "s" "d" "png").2.toOption = some 1
    ∧ ((xyz_to_mbtiles ⟨true, treeOutOfRange, none⟩ "s" "d" "png").1.dst.getD
        ⟨[], []⟩).tiles = [⟨0, 0, -5, [7]⟩] := by
  constructor <;> decide

/-- C2 as amended: the conversion carries no range check at all.  It always
succeeds, returning `(1 <<< zoom) - 1 - row`, an out-of-range row is mapped
to a row outside `[0, 2^zoom - 1]` (negative when the row exceeds the top of
the range), and with a valid source directory the builder run completes
without error whatever rows occur in the tree. -/
theorem conversion_total_no_range_check (z : Nat) (y : Int) (w : World)
    (src dst fmt : String) (hdir : w.srcIsDir = true) :
    xyzToTms z y = 2 ^ z - 1 - y
    ∧ (2 ^ z - 1 < y → xyzToTms z y < 0)
    ∧ (xyz_to_mbtiles w src dst fmt).2 = Except.ok (walkDrafts w.tree).length := by
  refine ⟨rfl, fun h => by unfold xyzToTms; omega, ?_⟩
  simp [xyz_to_mbtiles, hdir]

theorem conversion_total_no_range_check_witness :
    (⟨true, treeOutOfRange, none⟩ : World).srcIsDir = true
    ∧ (xyzToTms 0 5 = 2 ^ 0 - 1 - 5
        ∧ (2 ^ 0 - 1 < (5 : Int) → xyzToTms 0 5 < 0)
        ∧ (xyz_to_mbtiles ⟨true, treeOutOfRange, none⟩ "s" "d" "png").2
            = Except.ok (walkDrafts treeOutOfRange).length) :=
  ⟨rfl, conversion_total_no_range_check 0 5 ⟨true, treeOutOfRange, none⟩ "s" "d" "png" rfl⟩

/-- C3: the row conversion `(1 <<< z) - 1 - r` is its own inverse on the
valid range: for `r` in `[0, 2^z - 1]` applying it twice returns `r`, and
the converted row stays inside `[0, 2^z - 1]`. -/
theorem flip_involutive_in_range (z : Nat) (r : Int)
    (h0 : 0 ≤ r) (h1 : r ≤ 2 ^ z - 1) :
    xyzToTms z (xyzToTms z r) = r
    ∧ 0 ≤ xyzToTms z r ∧ xyzToTms z r ≤ 2 ^ z - 1 := by
  have hp : (0 : Int) < 2 ^ z := pow_pos (by norm_num) z
  unfold xyzToTms
  omega

theorem flip_involutive_in_range_witness :
    (0 : Int) ≤ 1 ∧ (1 : Int) ≤ 2 ^ 2 - 1
    ∧ (xyzToTms 2 (xyzToTms 2 1) = 1
        ∧ 0 ≤ xyzToTms 2 1 ∧ xyzToTms 2 1 ≤ 2 ^ 2 - 1) :=
  ⟨by decide, by decide, flip_involutive_in_range 2 1 (by decide) (by decide)⟩

/-- C7, counterexample: a `.jpg` tile request that hits is answered 200 with
`Content-Type: image/png` (the handler hardcodes it at
`mbtiles_server.py:35`), not with a content type matching the requested
extension. -/
theorem jpg_request_png_content_type :
    (do_GET (some storeOneTile) (Request.tile 0 0 0 ImgExt.jpg)).status = 200
    ∧ ("Content-Type", "image/png")
        ∈ (do_GET (some storeOneTile) (Request.tile 0 0 0 ImgExt.jpg)).headers
    ∧ ("Content-Type", "image/jpeg")
        ∉ (do_GET (some storeOneTile) (Request.tile 0 0 0 ImgExt.jpg)).headers := by
  refine ⟨by decide, by decide, by decide⟩

/-- C7 as amended: every 200 tile response carries `Content-Type: image/png`
regardless of which accepted extension was requested, together with the
permissive cross-origin headers (origin `*`, methods `GET`, headers
`Content-Type`). -/
theorem tile_hit_headers_png_cors (db : Option TileStore) (z x y : Int)
    (e : ImgExt) (b : Bytes) (hb : get_tile db z x y = some b) (hne : b ≠ []) :
    do_GET db (Request.tile z x y e)
      = { status := 200, headers := tileOkHeaders, body := Body.bytes b }
    ∧ ("Content-Type", "image/png") ∈ tileOkHeaders
    ∧ ("Access-Control-Allow-Origin", "*") ∈ tileOkHeaders
    ∧ ("Access-Control-Allow-Methods", "GET") ∈ tileOkHeaders
    ∧ ("Access-Control-Allow-Headers", "Content-Type") ∈ tileOkHeaders := by
  refine ⟨?_, by decide, by decide, by decide, by decide⟩
  simp only [do_GET]
  rw [hb]
  simp [hne]

theorem tile_hit_headers_png_cors_witness :
    get_tile (some storeOneTile) 0 0 0 = some [80, 75]
    ∧ ([80, 75] : Bytes) ≠ []
    ∧ do_GET (some storeOneTile) (Request.tile 0 0 0 ImgExt.jpeg)
        = { status := 200, headers := tileOkHeaders, body := Body.bytes [80, 75] } :=
  ⟨by decide, by decide,
    (tile_hit_headers_png_cors (some storeOneTile) 0 0 0 ImgExt.jpeg [80, 75]
      (by decide) (by decide)).1⟩

/-- C8: the read path is total.  A well-formed but absent coordinate makes
`get_tile` return the not-found signal and the handler answer 404 (the
`try/except` never lets an exception reach the HTTP caller), and
`get_metadata` over a missing/unreadable store returns the empty mapping,
served as 200 with an empty JSON object. -/
theorem read_path_never_raises (s : TileStore) (z x y : Int) (e : ImgExt)
    (habs : lookupTiles s.tiles z x (xyzToTms z.toNat y) = none) :
    get_tile (some s) z x y = none
    ∧ do_GET (some s) (Request.tile z x y e)
        = { status := 404, headers := [], body := Body.errorPage "Tile not found" }
    ∧ get_metadata none = []
    ∧ do_GET none Request.metadata
        = { status := 200, headers := metadataHeaders, body := Body.jsonObject [] } := by
  have h1 : get_tile (some s) z x y = none := by
    simp only [get_tile]
    split
    · rfl
    · exact habs
  refine ⟨h1, ?_, rfl, rfl⟩
  simp only [do_GET]
  rw [h1]

theorem read_path_never_raises_witness :
    lookupTiles (⟨[], []⟩ : TileStore).tiles 9 9 (xyzToTms (9 : Int).toNat 9) = none
    ∧ do_GET (some ⟨[], []⟩) (Request.tile 9 9 9 ImgExt.png)
        = { status := 404, headers := [], body := Body.errorPage "Tile not found" } :=
  ⟨by decide, (read_path_never_raises ⟨[], []⟩ 9 9 9 ImgExt.png (by decide)).2.1⟩

/-- C9: when the source path is not a directory the builder raises
`SystemExit` (non-zero exit) before any writing begins: the returned world is
untouched, in particular the destination is neither removed nor created. -/
theorem bad_src_fails_before_writing (w : World) (src dst fmt : String)
    (h : w.srcIsDir = false) :
    (xyz_to_mbtiles w src dst fmt).1 = w
    ∧ (xyz_to_mbtiles w src dst fmt).1.dst = w.dst
    ∧ (xyz_to_mbtiles w src dst fmt).2
        = Except.error ("Source folder not found: " ++ src)
    ∧ exitStatus (xyz_to_mbtiles w src dst fmt).2 ≠ 0 := by
  simp [xyz_to_mbtiles, h, exitStatus]

theorem bad_src_fails_before_writing_witness :
    (⟨false, [], some storeOneTile⟩ : World).srcIsDir = false
    ∧ (xyz_to_mbtiles ⟨false, [], some storeOneTile⟩ "nosuch" "d" "png").1.dst
        = some storeOneTile
    ∧ exitStatus (xyz_to_mbtiles ⟨false, [], some storeOneTile⟩ "nosuch" "d" "png").2 ≠ 0 := by
  have h := bad_src_fails_before_writing ⟨false, [], some storeOneTile⟩ "nosuch" "d" "png" rfl
  exact ⟨rfl, h.2.1, h.2.2.2⟩

/-- C10: the requested extension selects the tile route but is never used by
the lookup or the response construction: requests differing only in the
extension get literally identical responses (same status, headers, body). -/
theorem response_independent_of_extension (db : Option TileStore) (z x y : Int)
    (h : 0 ≤ z) (e1 e2 : ImgExt) :
    do_GET db (Request.tile z x y e1) = do_GET db (Request.tile z x y e2) := rfl

theorem response_independent_of_extension_witness :
    (0 : Int) ≤ 0
    ∧ do_GET (some storeOneTile) (Request.tile 0 0 0 ImgExt.png)
        = do_GET (some storeOneTile) (Request.tile 0 0 0 ImgExt.jpeg) :=
  ⟨by decide,
    response_independent_of_extension (some storeOneTile) 0 0 0 (by decide)
      ImgExt.png ImgExt.jpeg⟩

theorem toString_intCast (n : Nat) : toString ((n : Nat) : Int) = toString n := rfl

/-- C1, counterexample: the tile `0/0/0.png` ingested with empty bytes is
served as 404, not as 200 with the empty body: `if tile_data:` at
`mbtiles_server.py:33` tests Python truthiness and the empty blob is falsy.
So the round trip as claimed fails for `B = b""`. -/
theorem empty_tile_served_404 :
    walkDrafts treeEmptyTile = [⟨0, 0, 0, []⟩]
    ∧ do_GET (xyz_to_mbtiles ⟨true, treeEmptyTile, none⟩ "s" "d" "png").1.dst
        (Request.tile 0 0 0 ImgExt.png)
      = { status := 404, headers := [], body := Body.errorPage "Tile not found" } := by
  refine ⟨by decide, by decide⟩

/-- C1 as amended: a tile ingested at top-down `(z, x, y)` with *nonempty*
bytes `B`, with no later duplicate at the same coordinate, is served by
`GET /z/x/y.png` against the built container as 200 with body exactly `B`:
the builder flip and the server flip compose to the identity on the serving
path. -/
theorem build_serve_round_trip (w : World) (src dst fmt : String)
    (hdir : w.srcIsDir = true) (l1 l2 : List Draft) (d : Draft)
    (hw : walkDrafts w.tree = l1 ++ d :: l2)
    (hnd : ∀ e ∈ l2, (e.z, e.x, e.y) ≠ (d.z, d.x, d.y))
    (hne : d.data ≠ []) :
    do_GET (xyz_to_mbtiles w src dst fmt).1.dst
        (Request.tile (d.z : Int) (d.x : Int) (d.y : Int) ImgExt.png)
      = { status := 200, headers := tileOkHeaders, body := Body.bytes d.data } := by
  have hst : (xyz_to_mbtiles w src dst fmt).1.dst
      = some ⟨ingest (walkDrafts w.tree), metadataRows dst fmt (zRange w.tree)⟩ := by
    simp [xyz_to_mbtiles, hdir]
  have hkey : ∀ e ∈ l2, draftKey e ≠ draftKey d := fun e he hc =>
    hnd e he (draftKey_eq_iff.mp hc)
  have hlook : lookupTiles (ingest (walkDrafts w.tree)) (d.z : Int) (d.x : Int)
      (xyzToTms d.z (d.y : Int)) = some d.data := by
    rw [hw]
    exact lookupTiles_ingest_append l1 l2 d hkey
  have hget : get_tile
      (some ⟨ingest (walkDrafts w.tree), metadataRows dst fmt (zRange w.tree)⟩)
      (d.z : Int) (d.x : Int) (d.y : Int) = some d.data := by
    simp only [get_tile]
    rw [if_neg (by omega), Int.toNat_ofNat]
    exact hlook
  rw [hst]
  simp only [do_GET]
  rw [hget]
  simp [hne]

theorem build_serve_round_trip_witness :
    walkDrafts treeOneTile = [] ++ (⟨0, 0, 0, [1, 2]⟩ : Draft) :: []
    ∧ ([1, 2] : Bytes) ≠ []
    ∧ do_GET (xyz_to_mbtiles ⟨true, treeOneTile, none⟩ "s" "d" "png").1.dst
        (Request.tile 0 0 0 ImgExt.png)
      = { status := 200, headers := tileOkHeaders, body := Body.bytes [1, 2] } :=
  ⟨by decide, by decide,
    build_serve_round_trip ⟨true, treeOneTile, none⟩ "s" "d" "png" rfl [] []
      ⟨0, 0, 0, [1, 2]⟩ (by decide) (fun e he => absurd he (List.not_mem_nil e))
      (by decide)⟩

/-- C4: ingesting two drafts with the same top-down coordinate and bytes
`B1` then `B2` leaves exactly one `tiles` row for that key triple, holding
`B2` (last write wins, given that nothing later touches the coordinate); and
the key triple is unique in `tiles` after every write. -/
theorem ingest_last_write_wins (l1 l2 l3 : List Draft) (zc xc yc : Nat)
    (B1 B2 : Bytes) (h3 : ∀ e ∈ l3, (e.z, e.x, e.y) ≠ (zc, xc, yc)) :
    (ingest (l1 ++ ⟨zc, xc, yc, B1⟩ :: (l2 ++ ⟨zc, xc, yc, B2⟩ :: l3))).filter
        (matchKey (zc : Int) (xc : Int) (xyzToTms zc (yc : Int)))
      = [draftRow ⟨zc, xc, yc, B2⟩]
    ∧ ∀ ds : List Draft, KeysDistinct (ingest ds) := by
  refine ⟨?_, keysDistinct_ingest⟩
  have hkey : ∀ e ∈ l3, draftKey e ≠ draftKey (⟨zc, xc, yc, B2⟩ : Draft) :=
    fun e he hc => h3 e he (by simpa using draftKey_eq_iff.mp hc)
  have hlook := lookupTiles_ingest_append (l1 ++ ⟨zc, xc, yc, B1⟩ :: l2) l3
    ⟨zc, xc, yc, B2⟩ hkey
  have hdis := keysDistinct_ingest
    ((l1 ++ ⟨zc, xc, yc, B1⟩ :: l2) ++ ⟨zc, xc, yc, B2⟩ :: l3)
  rw [show l1 ++ (⟨zc, xc, yc, B1⟩ : Draft) :: (l2 ++ ⟨zc, xc, yc, B2⟩ :: l3)
      = (l1 ++ ⟨zc, xc, yc, B1⟩ :: l2) ++ ⟨zc, xc, yc, B2⟩ :: l3 by simp]
  unfold lookupTiles at hlook
  rcases Option.map_eq_some'.mp hlook with ⟨t, hfind, hdata⟩
  have hk := matchKey_iff.mp (List.find?_some hfind)
  obtain ⟨zl, xl, rl, dat⟩ := t
  obtain ⟨h1, h2, h3'⟩ : zl = ((zc : Nat) : Int) ∧ xl = ((xc : Nat) : Int)
      ∧ rl = xyzToTms zc (yc : Int) := by
    simpa [rowKey, Prod.ext_iff] using hk
  subst h1
  subst h2
  subst h3'
  have hdat : dat = B2 := hdata
  subst hdat
  exact filter_eq_singleton_of_distinct hdis hfind

theorem ingest_last_write_wins_witness :
    (ingest ([] ++ (⟨0, 0, 0, [1]⟩ : Draft) :: ([] ++ (⟨0, 0, 0, [2]⟩ : Draft) :: []))).filter
        (matchKey 0 0 (xyzToTms 0 0))
      = [draftRow ⟨0, 0, 0, [2]⟩] :=
  (ingest_last_write_wins [] [] [] 0 0 0 [1] [2]
    (fun e he => absurd he (List.not_mem_nil e))).1

/-- C5, counterexample: a tree whose only top-level entry is a plain *file*
named `3` yields no valid tile from the walk, yet the build reports
`minzoom = maxzoom = "3"`, not `"0"`: the `z_min`/`z_max` update at
`xyz_to_mbtiles.py:29` happens before the `isdir` check at line 31. -/
theorem digit_file_sets_zoom_range :
    walkDrafts treeDigitFile = []
    ∧ ((xyz_to_mbtiles ⟨true, treeDigitFile, none⟩ "s" "d" "png").1.dst.getD
        ⟨[], []⟩).metadata.lookup "minzoom" = some "3"
    ∧ ((xyz_to_mbtiles ⟨true, treeDigitFile, none⟩ "s" "d" "png").1.dst.getD
        ⟨[], []⟩).metadata.lookup "maxzoom" = some "3" := by
  refine ⟨by decide, by decide, by decide⟩

/-- C5 as amended: a build over a source tree with *no digit-named top-level
entry* (in particular, one the walk finds nothing in) writes
`minzoom = "0"` and `maxzoom = "0"`; a digit-named top-level entry updates
the observed zoom range even when it is not a directory or contains no valid
tile. -/
theorem no_digit_entries_minmax_zero (w : World) (src dst fmt : String)
    (hdir : w.srcIsDir = true)
    (h : ∀ e ∈ w.tree, isDigitName e.name = false) :
    ((xyz_to_mbtiles w src dst fmt).1.dst.getD ⟨[], []⟩).metadata.lookup "minzoom"
      = some "0"
    ∧ ((xyz_to_mbtiles w src dst fmt).1.dst.getD ⟨[], []⟩).metadata.lookup "maxzoom"
      = some "0" := by
  have hz : zRange w.tree = (99, -1) :=
    foldl_zRangeStep_of_no_digit _ _ fun e he => h e (mem_sortZoomEnts.mp he)
  have hst : (xyz_to_mbtiles w src dst fmt).1.dst
      = some ⟨ingest (walkDrafts w.tree), metadataRows dst fmt (zRange w.tree)⟩ := by
    simp [xyz_to_mbtiles, hdir]
  rw [hst, hz]
  exact ⟨rfl, rfl⟩

theorem no_digit_entries_minmax_zero_witness :
    ((xyz_to_mbtiles ⟨true, treeNoDigit, none⟩ "s" "d" "png").1.dst.getD
        ⟨[], []⟩).metadata.lookup "minzoom" = some "0"
    ∧ ((xyz_to_mbtiles ⟨true, treeNoDigit, none⟩ "s" "d" "png").1.dst.getD
        ⟨[], []⟩).metadata.lookup "maxzoom" = some "0" :=
  no_digit_entries_minmax_zero ⟨true, treeNoDigit, none⟩ "s" "d" "png" rfl (by decide)

/-- C6, counterexample: over the single tile `99/0/0.png` the observed zoom
range is `{99}`, but the build writes `minzoom = "0"` rather than the decimal
string of the observed minimum: an observed minimum of 99 collides with the
`z_min` sentinel value 99 of `xyz_to_mbtiles.py:23`. -/
theorem zoom99_minzoom_sentinel_collision :
    digitZooms treeZoom99 = [99]
    ∧ ((xyz_to_mbtiles ⟨true, treeZoom99, none⟩ "s" "d" "png").1.dst.getD
        ⟨[], []⟩).metadata.lookup "minzoom" = some "0"
    ∧ toString (99 : Nat) ≠ "0" := by
  refine ⟨by decide, by decide, by decide⟩

/-- C6 as amended: after every successful build the metadata relation holds
exactly the eight keys in order — name (destination base name),
type `baselayer`, version `1.0`, description, format (as configured),
minzoom, maxzoom, attribution `""` — where maxzoom is the decimal string of
the observed maximum zoom whenever some zoom was observed, minzoom is the
decimal string of the observed minimum only when that minimum is below the
sentinel 99 (else `"0"`), and both are `"0"` when no zoom was observed. -/
theorem metadata_exact_eight_keys (w : World) (src dst fmt : String)
    (hdir : w.srcIsDir = true)
    (hfmt : fmt = "png" ∨ fmt = "jpg" ∨ fmt = "jpeg") :
    (xyz_to_mbtiles w src dst fmt).1.dst
      = some ⟨ingest (walkDrafts w.tree),
          [("name", basename dst), ("type", "baselayer"), ("version", "1.0"),
           ("description", "Packed from XYZ folder"), ("format", fmt),
           ("minzoom", minzoomStr (zRange w.tree)),
           ("maxzoom", maxzoomStr (zRange w.tree)), ("attribution", "")]⟩
    ∧ (digitZooms w.tree = [] →
        minzoomStr (zRange w.tree) = "0" ∧ maxzoomStr (zRange w.tree) = "0")
    ∧ (∀ m ∈ digitZooms w.tree, (∀ k ∈ digitZooms w.tree, m ≤ k) → m < 99 →
        minzoomStr (zRange w.tree) = toString m)
    ∧ (∀ M ∈ digitZooms w.tree, (∀ k ∈ digitZooms w.tree, k ≤ M) →
        maxzoomStr (zRange w.tree) = toString M) := by
  have hl : strLower fmt = fmt := by
    rcases hfmt with rfl | rfl | rfl <;> decide
  refine ⟨by simp [xyz_to_mbtiles, hdir, metadataRows, hl], ?_, ?_, ?_⟩
  · intro hdz
    have hft : w.tree.filter (fun e => isDigitName e.name) = [] :=
      List.map_eq_nil_iff.mp hdz
    have hnd : ∀ e ∈ w.tree, isDigitName e.name = false := by
      intro e he
      by_contra hc
      have : isDigitName e.name = true := by
        cases hb : isDigitName e.name
        · exact absurd hb hc
        · rfl
      exact absurd this (List.filter_eq_nil_iff.mp hft e he)
    have hz : zRange w.tree = (99, -1) :=
      foldl_zRangeStep_of_no_digit _ _ fun e he => hnd e (mem_sortZoomEnts.mp he)
    rw [hz]
    exact ⟨rfl, rfl⟩
  · intro m hm hmin h99
    have hz := zRange_min_eq hm hmin h99
    unfold minzoomStr
    rw [hz, if_pos, toString_intCast]
    have : (m : Int) < 99 := by exact_mod_cast h99
    omega
  · intro M hM hmax
    have hz := zRange_max_eq hM hmax
    unfold maxzoomStr
    rw [hz, if_pos, toString_intCast]
    have : (0 : Int) ≤ (M : Int) := Int.natCast_nonneg M
    omega

theorem metadata_exact_eight_keys_witness :
    (xyz_to_mbtiles ⟨true, treeDigitFile, none⟩ "s" "web/map.mbtiles" "jpg").1.dst
      = some ⟨ingest (walkDrafts treeDigitFile),
          [("name", basename "web/map.mbtiles"), ("type", "baselayer"),
           ("version", "1.0"), ("description", "Packed from XYZ folder"),
           ("format", "jpg"), ("minzoom", minzoomStr (zRange treeDigitFile)),
           ("maxzoom", maxzoomStr (zRange treeDigitFile)), ("attribution", "")]⟩ :=
  (metadata_exact_eight_keys ⟨true, treeDigitFile, none⟩ "s" "web/map.mbtiles" "jpg"
    rfl (Or.inr (Or.inl rfl))).1

end MBT
